import Mathlib

/-!
Shallow embedding of the Sonora music player core (`sonora.py`) and proofs
about its library index, playback state machine, persistence and scanner.

External collaborators (filesystem, audio engine, metadata tags, random
number generator, wall clock, OS trash) are modelled as explicit parameters;
the functions below mirror the Python methods of `MusicPlayer` and
`ScannerThread` line by line.
-/

namespace Sonora

/-- User-visible errors of the playback/library operations: `notFound` for a
missing file at play time, `unsupportedAudio` when the engine rejects a file,
`trashPermission` when the OS denies moving a file to trash, `generic` for
any other caught exception. -/
inductive PError where
  | notFound
  | unsupportedAudio
  | trashPermission
  | generic
deriving DecidableEq, Repr

/-- Environment of external collaborators: `fileExists` is `os.path.exists`,
`loadOk` tells whether `pygame.mixer.music.load/play` succeeds on a path,
`duration` is the track length reported by metadata (`File(file).info.length`,
0 when unreadable), `albumOf` is the extracted `TALB` tag and `artistsRaw`
the raw `TPE1` artist string of a path. -/
structure Env where
  fileExists : String → Bool
  loadOk : String → Bool
  duration : String → ℚ
  albumOf : String → String
  artistsRaw : String → String

/-- Session state of `MusicPlayer`: the master track sequence `tracks`,
`current_index` (-1 meaning no track), the playing flag, the last known
track length, the shuffle flag, the favorites set (kept as a list) and the
derived album/artist buckets (insertion-ordered association lists, as Python
dicts are insertion-ordered). -/
structure PlayerState where
  tracks : List String
  current_index : Int
  is_playing : Bool
  track_length : ℚ
  is_shuffled : Bool
  favorites : List String
  albums : List (String × List String)
  artists : List (String × List String)
deriving DecidableEq, Repr

/-- Initial state set up in `MusicPlayer.__init__`. -/
def initialState : PlayerState :=
  { tracks := [], current_index := -1, is_playing := false, track_length := 0,
    is_shuffled := false, favorites := [], albums := [], artists := [] }

/-- Embedding of `MusicPlayer.play_track`: guarded by
`0 <= self.current_index < len(self.tracks)`; aborts with `notFound` if the
file is gone; on a successful engine load sets `is_playing` and refreshes
`track_length` from metadata (`update_track_info`); an engine failure is
caught and leaves the state as it was. -/
def play_track (env : Env) (s : PlayerState) : PlayerState × Option PError :=
  if 0 ≤ s.current_index ∧ s.current_index < (s.tracks.length : Int) then
    let track_path := s.tracks.getD s.current_index.toNat ""
    if env.fileExists track_path = false then
      (s, some .notFound)
    else if env.loadOk track_path then
      ({ s with is_playing := true, track_length := env.duration track_path }, none)
    else
      (s, some .unsupportedAudio)
  else (s, none)

/-- Embedding of `MusicPlayer.play_track_from_path` — the `playTrack(index)`
entry point: resolve the path to its index in the master sequence (a
`ValueError` for an unknown path is swallowed), set `current_index`, then
run `play_track`. -/
def play_track_from_path (env : Env) (track_path : String) (s : PlayerState) :
    PlayerState × Option PError :=
  if track_path ∈ s.tracks then
    play_track env { s with current_index := (s.tracks.indexOf track_path : Int) }
  else (s, none)

/-- Embedding of `MusicPlayer.play_pause`: with no current track and a
non-empty library start at index 0; otherwise pause when playing, else
unpause (which sets the playing flag unconditionally). -/
def play_pause (env : Env) (s : PlayerState) : PlayerState × Option PError :=
  if s.current_index = -1 ∧ s.tracks ≠ [] then
    play_track env { s with current_index := 0 }
  else if s.is_playing then
    ({ s with is_playing := false }, none)
  else
    ({ s with is_playing := true }, none)

/-- Embedding of `MusicPlayer.prev_track`; `pos_ms` is the engine position
`pygame.mixer.music.get_pos()` in milliseconds. Playing and more than 10s in:
restart the current track (engine side only); otherwise step the index back
by one modulo the library size (Python `%`, i.e. `Int.emod`) and play. -/
def prev_track (env : Env) (pos_ms : Int) (s : PlayerState) : PlayerState × Option PError :=
  if s.tracks ≠ [] ∧ s.is_playing then
    if pos_ms > 10000 then (s, none)
    else play_track env { s with current_index := (s.current_index - 1) % (s.tracks.length : Int) }
  else if s.tracks ≠ [] then
    play_track env { s with current_index := (s.current_index - 1) % (s.tracks.length : Int) }
  else (s, none)

/-- Embedding of the `while new_index == self.current_index` redraw loop of
`next_track`: consume random draws until one differs from `cur`; `none`
models the loop not terminating within the supplied draws. -/
def pickDifferent (cur : Int) : List Nat → Option Nat
  | [] => none
  | d :: rest => if (d : Int) = cur then pickDifferent cur rest else some d

/-- Embedding of `MusicPlayer.next_track`; `draws` is the stream of values
produced by `random.randint(0, len(self.tracks) - 1)`. With shuffle on and
more than one track, redraw until the index differs from the current one;
with one track use index 0; with shuffle off advance by one modulo the
library size. Always calls `play_track`. -/
def next_track (env : Env) (draws : List Nat) (s : PlayerState) :
    Option (PlayerState × Option PError) :=
  if s.tracks ≠ [] then
    if s.is_shuffled then
      if 1 < s.tracks.length then
        match pickDifferent s.current_index draws with
        | none => none
        | some j => some (play_track env { s with current_index := (j : Int) })
      else some (play_track env { s with current_index := 0 })
    else
      some (play_track env { s with current_index := (s.current_index + 1) % (s.tracks.length : Int) })
  else some (s, none)

/-- Embedding of `MusicPlayer.toggle_favorite`: with a valid current index,
remove the current path from the favorites set if present, else add it. -/
def toggle_favorite (s : PlayerState) : PlayerState :=
  if 0 ≤ s.current_index ∧ s.current_index < (s.tracks.length : Int) then
    let path := s.tracks.getD s.current_index.toNat ""
    if path ∈ s.favorites then { s with favorites := s.favorites.erase path }
    else { s with favorites := s.favorites ++ [path] }
  else s

/-- Embedding of `MusicPlayer.toggle_shuffle`. -/
def toggle_shuffle (s : PlayerState) : PlayerState :=
  { s with is_shuffled := !s.is_shuffled }

/-- Embedding of `MusicPlayer.set_volume`: the value forwarded to the audio
engine is `value / 100.0`, with no clamping in the player code. -/
def set_volume (value : Int) : ℚ := (value : ℚ) / 100

/-- Clamp of an integer volume to [0, 100]. -/
def clampVolume (value : Int) : Int := max 0 (min 100 value)

/-- Volume forwarding as the spec words it (clamp to [0,100], then
normalize); written from the spec for comparison with `set_volume`. -/
def set_volume_specClamped (value : Int) : ℚ := (clampVolume value : ℚ) / 100

/-- Append a track to the bucket of key `k` in an insertion-ordered
association list, creating the bucket at the end when absent — the
`defaultdict(list)` behaviour of `self.albums[album].append(t)`. -/
def bucketAppend (bs : List (String × List String)) (k t : String) :
    List (String × List String) :=
  match bs with
  | [] => [(k, [t])]
  | (k', v) :: rest =>
    if k' = k then (k', v ++ [t]) :: rest else (k', v) :: bucketAppend rest k t

/-- Python `artists_str.replace(';', ',')`, character-wise. -/
def replaceSemis (l : List Char) : List Char :=
  l.map (fun ch => if ch = ';' then ',' else ch)

/-- Python `str.split(',')` on character data; the empty string yields one
empty segment, as in Python. -/
def splitComma : List Char → List (List Char)
  | [] => [[]]
  | ch :: rest =>
    match splitComma rest with
    | [] => [[]]
    | g :: gs => if ch = ',' then [] :: g :: gs else (ch :: g) :: gs

/-- Python `str.strip()`: drop whitespace from both ends. -/
def trimChars (l : List Char) : List Char :=
  ((l.dropWhile Char.isWhitespace).reverse.dropWhile Char.isWhitespace).reverse

/-- Artist-string parsing of `_rebuild_indexes`:
`[a.strip() for a in artists_str.replace(';', ',').split(',') if a.strip()]` —
order preserved, duplicates NOT removed. -/
def parseArtists (raw : String) : List String :=
  ((splitComma (replaceSemis raw.data)).map (fun g => String.mk (trimChars g))).filter
    (fun a => a ≠ "")

/-- Embedding of `MusicPlayer._rebuild_indexes`: clear both maps, then for
each track append it to its album bucket and to the bucket of every parsed
artist name. -/
def rebuild_indexes (env : Env) (s : PlayerState) : PlayerState :=
  let res := s.tracks.foldl
    (fun (acc : List (String × List String) × List (String × List String)) t =>
      (bucketAppend acc.1 (env.albumOf t) t,
       (parseArtists (env.artistsRaw t)).foldl (fun ar a => bucketAppend ar a t) acc.2))
    ([], [])
  { s with albums := res.1, artists := res.2 }

/-- Outcome of `send2trash.send2trash`: success, `TrashPermissionError`, or
any other exception. -/
inductive TrashResult where
  | ok
  | permissionError
  | otherError
deriving DecidableEq, Repr

/-- Bucket cleanup loop of `delete_track`: for each key, if the path is in
the bucket, remove its FIRST occurrence (`list.remove`) and drop the bucket
when it becomes empty. -/
def removeFromBuckets (p : String) : List (String × List String) → List (String × List String)
  | [] => []
  | (k, v) :: rest =>
    if p ∈ v then
      if v.erase p = [] then removeFromBuckets p rest
      else (k, v.erase p) :: removeFromBuckets p rest
    else (k, v) :: removeFromBuckets p rest

/-- Embedding of `MusicPlayer.delete_track` (after the user confirms the
dialog): a trash failure is caught before any mutation; on success the path
is removed (first occurrence) from the master sequence, playback is stopped
when the deleted index was current, and the path is removed from favorites
and from every album/artist bucket, deleting emptied buckets. -/
def delete_track (trash : TrashResult) (track_path : String) (s : PlayerState) :
    PlayerState × Option PError :=
  match trash with
  | .permissionError => (s, some .trashPermission)
  | .otherError => (s, some .generic)
  | .ok =>
    if track_path ∈ s.tracks then
      let idx : Int := s.tracks.indexOf track_path
      let s1 := { s with tracks := s.tracks.erase track_path }
      let s2 :=
        if idx = s.current_index then { s1 with current_index := -1, is_playing := false }
        else s1
      ({ s2 with favorites := s2.favorites.erase track_path,
                 artists := removeFromBuckets track_path s2.artists,
                 albums := removeFromBuckets track_path s2.albums }, none)
    else (s, none)

/-- Loop body of `MusicPlayer.load_tracks` over one file: skip paths that do
not exist on disk (`continue`), skip paths already in the master sequence,
otherwise append and count. -/
def load_tracks_step (env : Env) (acc : List String × Nat) (f : String) : List String × Nat :=
  if env.fileExists f = false then acc
  else if f ∈ acc.1 then acc
  else (acc.1 ++ [f], acc.2 + 1)

/-- Embedding of `MusicPlayer.load_tracks`: walk `files` in order, appending
each path that exists on disk and is not yet in the master sequence, counting
the appends; when anything was added, rebuild the album/artist indexes. -/
def load_tracks (env : Env) (files : List String) (s : PlayerState) : PlayerState × Nat :=
  let res := files.foldl (load_tracks_step env) (s.tracks, 0)
  if 0 < res.2 then (rebuild_indexes env { s with tracks := res.1 }, res.2)
  else ({ s with tracks := res.1 }, res.2)

/-- Persisted snapshot written to `~/.sonora_state.json` by `save_state`. -/
structure Snapshot where
  tracks : List String
  favorites : List String
  current_path : Option String
  is_shuffled : Bool
  volume : Int
  timestamp : ℚ
deriving DecidableEq, Repr

/-- Embedding of `MusicPlayer.save_state`: the snapshot holds the track
list, the favorites, the current track as a PATH (null when the index is
invalid), the shuffle flag, the slider's volume and a timestamp. -/
def save_state (s : PlayerState) (volume : Int) (now : ℚ) : Snapshot :=
  { tracks := s.tracks,
    favorites := s.favorites,
    current_path :=
      if 0 ≤ s.current_index ∧ s.current_index < (s.tracks.length : Int) then
        some (s.tracks.getD s.current_index.toNat "")
      else none,
    is_shuffled := s.is_shuffled,
    volume := volume,
    timestamp := now }

/-- Session fields restored by `load_state`. -/
structure LoadedState where
  tracks : List String
  favorites : List String
  current_index : Int
  is_shuffled : Bool
  volume : Int
deriving DecidableEq, Repr

/-- Embedding of `MusicPlayer.load_state` on a readable snapshot: keep only
track paths and favorites that exist on disk (`ex`), resolve the stored
current path to its index in the filtered list (-1 when absent or null),
and set the volume slider (whose `setValue` clamps to its range [0,100]). -/
def load_state (ex : String → Bool) (data : Snapshot) : LoadedState :=
  let tracks := data.tracks.filter (fun t => ex t)
  let current_index : Int :=
    match data.current_path with
    | some cp => if cp ∈ tracks then (tracks.indexOf cp : Int) else -1
    | none => -1
  { tracks := tracks,
    favorites := data.favorites.filter (fun t => ex t),
    current_index := current_index,
    is_shuffled := data.is_shuffled,
    volume := max 0 (min 100 data.volume) }

/-- Debounce interval `AUTOSAVE_DEBOUNCE = 0.5` seconds. -/
def AUTOSAVE_DEBOUNCE : ℚ := 1 / 2

/-- Wall-clock state of the save debouncer: `self._last_save_time`. -/
structure SaveClock where
  last_save_time : ℚ
deriving DecidableEq, Repr

/-- Embedding of `MusicPlayer.save_state_debounced`: run `save_state` (which
stamps `_last_save_time = time.time()`) only when more than
`AUTOSAVE_DEBOUNCE` seconds have passed since the last executed save; the
boolean reports whether the save was executed. -/
def save_state_debounced (now : ℚ) (c : SaveClock) : SaveClock × Bool :=
  if now - c.last_save_time > AUTOSAVE_DEBOUNCE then ({ last_save_time := now }, true)
  else (c, false)

/-- Embedding of the save performed by `MusicPlayer.closeEvent`: it calls
`save_state()` directly, with no interval guard. -/
def closeEvent_flush (now : ℚ) (_c : SaveClock) : SaveClock × Bool :=
  ({ last_save_time := now }, true)

/-- Allowed audio extensions `AUDIO_EXTS`. -/
def AUDIO_EXTS : List String := [".mp3", ".m4a", ".flac", ".wav"]

/-- Python `str.lower`, character-wise. -/
def lowerStr (s : String) : String := ⟨s.data.map Char.toLower⟩

/-- Python `str.endswith`, as a suffix test on the character data. -/
def strEndsWith (s suff : String) : Bool := suff.data.isSuffixOf s.data

/-- Extension filter of the scanner: `f.lower().endswith(AUDIO_EXTS)`. -/
def isAudioName (f : String) : Bool := AUDIO_EXTS.any (fun e => strEndsWith (lowerStr f) e)

/-- Path join `os.path.join(root, f)` for a directory and a filename. -/
def joinPath (d f : String) : String := d ++ "/" ++ f

/-- Filesystem as the scanner sees it: `pathExists` is `os.path.exists` and
`walk base` flattens `os.walk(base)` into (directory, filename) pairs in
traversal order. -/
structure FS where
  pathExists : String → Bool
  walk : String → List (String × String)

/-- Files accumulated for one root of `ScannerThread.run`: non-existent
roots contribute nothing; otherwise every walked filename passing the
extension filter is joined to its directory. -/
def scanRoot (fs : FS) (base : String) : List String :=
  if fs.pathExists base then
    ((fs.walk base).filter (fun df => isAudioName df.2)).map (fun df => joinPath df.1 df.2)
  else []

/-- Accumulation of `found` over all roots, in order (no cancellation). -/
def scannerFound (fs : FS) (roots : List String) : List String :=
  roots.foldl (fun acc base => acc ++ scanRoot fs base) []

/-- Worker for `dedupKeepFirst`: `seen` records the paths already kept. -/
def dedupAux (seen : List String) : List String → List String
  | [] => []
  | x :: xs => if x ∈ seen then dedupAux seen xs else x :: dedupAux (seen ++ [x]) xs

/-- Python `list(dict.fromkeys(found))`: keep the first occurrence of each
path, preserving order. -/
def dedupKeepFirst (l : List String) : List String := dedupAux [] l

/-- Lexicographic comparison of character data by code point — the order
Python's `sorted` uses on strings. -/
def lexLe : List Char → List Char → Bool
  | [], _ => true
  | _ :: _, [] => false
  | a :: as, b :: bs =>
    if a.toNat < b.toNat then true
    else if b.toNat < a.toNat then false
    else lexLe as bs

/-- Lexicographic string order by code point. -/
def strLe (a b : String) : Prop := lexLe a.data b.data = true

instance : DecidableRel strLe :=
  fun a b => inferInstanceAs (Decidable (lexLe a.data b.data = true))

/-- Terminal result of `ScannerThread.run`:
`unique = sorted(list(dict.fromkeys(found)))` — dedupe, then sort
lexicographically. -/
def scannerRun (fs : FS) (roots : List String) : List String :=
  List.insertionSort strLe (dedupKeepFirst (scannerFound fs roots))

/-- Transitivity of the code-point lexicographic comparison. -/
theorem lexLe_trans (a : List Char) :
    ∀ b c, lexLe a b = true → lexLe b c = true → lexLe a c = true := by
  induction a with
  | nil => intro b c _ _; rfl
  | cons x xs ih =>
    intro b c hab hbc
    match b, c with
    | [], _ => simp [lexLe] at hab
    | _ :: _, [] => simp [lexLe] at hbc
    | y :: ys, z :: zs =>
      simp only [lexLe] at hab hbc ⊢
      by_cases h1 : x.toNat < y.toNat
      · by_cases h2 : y.toNat < z.toNat
        · have h : x.toNat < z.toNat := Nat.lt_trans h1 h2
          simp [h]
        · by_cases h3 : z.toNat < y.toNat
          · rw [if_neg h2, if_pos h3] at hbc; exact absurd hbc (by simp)
          · have h : x.toNat < z.toNat := by omega
            simp [h]
      · by_cases h4 : y.toNat < x.toNat
        · rw [if_neg h1, if_pos h4] at hab; exact absurd hab (by simp)
        · rw [if_neg h1, if_neg h4] at hab
          by_cases h2 : y.toNat < z.toNat
          · have h : x.toNat < z.toNat := by omega
            simp [h]
          · by_cases h3 : z.toNat < y.toNat
            · rw [if_neg h2, if_pos h3] at hbc; exact absurd hbc (by simp)
            · rw [if_neg h2, if_neg h3] at hbc
              have hxz : ¬ x.toNat < z.toNat := by omega
              have hzx : ¬ z.toNat < x.toNat := by omega
              rw [if_neg hxz, if_neg hzx]
              exact ih ys zs hab hbc

/-- Totality of the code-point lexicographic comparison. -/
theorem lexLe_total (a : List Char) : ∀ b, lexLe a b = true ∨ lexLe b a = true := by
  induction a with
  | nil => intro b; exact Or.inl rfl
  | cons x xs ih =>
    intro b
    match b with
    | [] => exact Or.inr rfl
    | y :: ys =>
      simp only [lexLe]
      by_cases h1 : x.toNat < y.toNat
      · left; simp [h1]
      · by_cases h2 : y.toNat < x.toNat
        · right; simp [h2]
        · rcases ih ys with h | h
          · left; simp [h1, h2, h]
          · right; simp [h1, h2, h]

instance : IsTrans String strLe :=
  ⟨fun a b c => lexLe_trans a.data b.data c.data⟩

instance : IsTotal String strLe :=
  ⟨fun a b => lexLe_total a.data b.data⟩

/-- Concrete environment in which only the file "a" exists on disk. -/
def envB : Env :=
  { fileExists := fun p => p == "a", loadOk := fun _ => true, duration := fun _ => 0,
    albumOf := fun _ => "X", artistsRaw := fun _ => "P" }

/-- Concrete environment in which every file exists and loads. -/
def envAll : Env :=
  { fileExists := fun _ => true, loadOk := fun _ => true, duration := fun _ => 7,
    albumOf := fun _ => "X", artistsRaw := fun _ => "P" }

/-- Concrete environment whose track metadata lists the same artist twice
(`TPE1 = "P,P"`), as a tag like "P, P" produces. -/
def envDup : Env :=
  { fileExists := fun _ => true, loadOk := fun _ => true, duration := fun _ => 0,
    albumOf := fun _ => "X", artistsRaw := fun _ => "P,P" }

/-- Concrete session: two tracks, the first one current, stopped. -/
def sAB : PlayerState :=
  { tracks := ["a", "b"], current_index := 0, is_playing := false, track_length := 0,
    is_shuffled := false, favorites := [], albums := [], artists := [] }

/-- Concrete session built by `_rebuild_indexes` over one track whose artist
tag repeats the same name, so its artist bucket holds the path twice. -/
def sDup : PlayerState := rebuild_indexes envDup { initialState with tracks := ["t"] }

/-- Concrete session: one track "b", current, stopped. -/
def sB : PlayerState :=
  { tracks := ["b"], current_index := 0, is_playing := false, track_length := 0,
    is_shuffled := false, favorites := [], albums := [], artists := [] }

/-- Concrete session: three tracks, no current track (index -1), stopped. -/
def sPrev : PlayerState :=
  { tracks := ["a", "b", "c"], current_index := -1, is_playing := false, track_length := 0,
    is_shuffled := false, favorites := [], albums := [], artists := [] }

/-- Concrete session: two tracks, the first current, shuffle enabled. -/
def sShuf : PlayerState :=
  { tracks := ["a", "b"], current_index := 0, is_playing := false, track_length := 0,
    is_shuffled := true, favorites := [], albums := [], artists := [] }

/-- Concrete session built by `_rebuild_indexes` over one track with a
single album and a single artist. -/
def sOne : PlayerState := rebuild_indexes envAll { initialState with tracks := ["t"] }

/-- Helper: `play_track` never changes the current index (it reads it). -/
theorem play_track_fst_current_index (env : Env) (s : PlayerState) :
    (play_track env s).1.current_index = s.current_index := by
  unfold play_track
  dsimp only
  split <;> (try split) <;> (try split) <;> rfl

/-- Helper: `play_track` never changes the track list. -/
theorem play_track_fst_tracks (env : Env) (s : PlayerState) :
    (play_track env s).1.tracks = s.tracks := by
  unfold play_track
  dsimp only
  split <;> (try split) <;> (try split) <;> rfl

/-- Helper: with a valid index and the file gone, `play_track` reports
`notFound` and returns the state unchanged. -/
theorem play_track_notFound (env : Env) (s : PlayerState)
    (h1 : 0 ≤ s.current_index) (h2 : s.current_index < (s.tracks.length : Int))
    (h3 : env.fileExists (s.tracks.getD s.current_index.toNat "") = false) :
    play_track env s = (s, some PError.notFound) := by
  unfold play_track
  dsimp only
  rw [if_pos ⟨h1, h2⟩, h3]
  simp

/-- Helper: with a valid index, the file present and the engine accepting it,
`play_track` transitions to playing and refreshes the track length. -/
theorem play_track_success (env : Env) (s : PlayerState)
    (h1 : 0 ≤ s.current_index) (h2 : s.current_index < (s.tracks.length : Int))
    (h3 : env.fileExists (s.tracks.getD s.current_index.toNat "") = true)
    (h4 : env.loadOk (s.tracks.getD s.current_index.toNat "") = true) :
    play_track env s =
      ({ s with is_playing := true,
                track_length := env.duration (s.tracks.getD s.current_index.toNat "") }, none) := by
  unfold play_track
  dsimp only
  rw [if_pos ⟨h1, h2⟩, h3, h4]
  simp

/-- Helper: value of `(-2) % n` for `n ≥ 1` — `0` when `n = 1`, else `n - 2`. -/
theorem neg_two_emod (n : Int) (h : 1 ≤ n) :
    (-2 : Int) % n = if n = 1 then 0 else n - 2 := by
  by_cases h1 : n = 1
  · simp [h1]
  · rw [if_neg h1]
    have h3 : (-2 + n * 1) % n = (-2 : Int) % n := Int.add_mul_emod_self_left (-2) n 1
    rw [mul_one] at h3
    rw [← h3]
    rw [Int.emod_eq_of_lt (by omega) (by omega)]
    omega

/-- Helper: a successful redraw yields a value that differs from the current
index and was one of the draws. -/
theorem pickDifferent_spec (cur : Int) (draws : List Nat) (j : Nat)
    (h : pickDifferent cur draws = some j) : (j : Int) ≠ cur ∧ j ∈ draws := by
  induction draws with
  | nil => simp [pickDifferent] at h
  | cons d rest ih =>
    by_cases hd : (d : Int) = cur
    · rw [pickDifferent, if_pos hd] at h
      rcases ih h with ⟨h1, h2⟩
      exact ⟨h1, List.mem_cons_of_mem d h2⟩
    · rw [pickDifferent, if_neg hd] at h
      rcases Option.some.injEq .. ▸ h with rfl
      exact ⟨hd, List.mem_cons_self d rest⟩

/-- C9 (corrected): the claim "the value is clamped to [0,100] ... for v
outside [0,100] the engine receives the clamped boundary value" fails:
`set_volume 200` forwards `2` to the engine, not the boundary value `1`. -/
theorem C9_counterexample :
    set_volume 200 = 2 ∧ set_volume_specClamped 200 = 1 ∧ (2 : ℚ) ≠ 1 := by
  refine ⟨?_, ?_, ?_⟩ <;> norm_num [set_volume, set_volume_specClamped, clampVolume]

/-- C9 (amended): `set_volume` performs no clamping — the engine always
receives the raw `v / 100`; this agrees with the clamp-then-normalize
behaviour of the spec exactly when `v` is already in [0, 100]. -/
theorem C9_amended_thm :
    ∀ v : Int, set_volume v = (v : ℚ) / 100 ∧
      (set_volume v = set_volume_specClamped v ↔ 0 ≤ v ∧ v ≤ 100) := by
  intro v
  refine ⟨rfl, ?_⟩
  unfold set_volume set_volume_specClamped clampVolume
  have h100 : (100 : ℚ) ≠ 0 := by norm_num
  rw [div_eq_div_iff h100 h100]
  constructor
  · intro h
    have h2 : (v : ℚ) = ((max 0 (min 100 v) : Int) : ℚ) := mul_right_cancel₀ h100 h
    have h3 : v = max 0 (min 100 v) := by exact_mod_cast h2
    omega
  · intro hv
    have h3 : max 0 (min 100 v) = v := by omega
    rw [h3]

/-- C9 witness: at the in-range input 70 the two sides agree. -/
theorem C9_amended_witness :
    set_volume 70 = set_volume_specClamped 70 :=
  (C9_amended_thm 70).2.mpr (by decide)

/-- C6 (confirmed): a debounced save request is executed exactly when more
than `AUTOSAVE_DEBOUNCE = 0.5` seconds have elapsed since the last executed
save (so execution implies at least 0.5s elapsed, and requests inside the
window are dropped), while the `closeEvent` shutdown flush always executes,
bypassing the interval guard. -/
theorem C6_thm :
    ∀ (now : ℚ) (c : SaveClock),
      ((save_state_debounced now c).2 = true ↔ now - c.last_save_time > AUTOSAVE_DEBOUNCE) ∧
      (closeEvent_flush now c).2 = true := by
  intro now c
  constructor
  · unfold save_state_debounced
    split_ifs with h <;> simp [h]
  · rfl

/-- C6 witness: one second after a save the debounced save executes, and the
shutdown flush executes as well. -/
theorem C6_witness :
    (save_state_debounced 1 { last_save_time := 0 }).2 = true ∧
    (closeEvent_flush 1 { last_save_time := 0 }).2 = true :=
  ⟨(C6_thm 1 { last_save_time := 0 }).1.mpr (by norm_num [AUTOSAVE_DEBOUNCE]),
   (C6_thm 1 { last_save_time := 0 }).2⟩

/-- C2 (code bug): pressing play/pause in the initial NoTrack state with an
EMPTY library runs the unpause branch of `play_pause` and sets the playing
flag, producing `is_playing = true` with `current_index = -1` and no tracks —
the code violates the claimed invariant "Playing implies a valid index". -/
theorem C2_bug_eval :
    ∀ env : Env,
      (play_pause env initialState).1.is_playing = true ∧
      (play_pause env initialState).1.current_index = -1 ∧
      (play_pause env initialState).1.tracks = [] := by
  intro env
  exact ⟨rfl, rfl, rfl⟩

/-- C10 (confirmed): `prev()` in the NoTrack state (index -1, not playing)
with a non-empty library sets the current index to `(-2) mod n` — that is
`n - 2` for `n ≥ 2` and `0` for `n = 1` (so never the last index `n - 1`
unless `n = 1`) — and, when that file exists and loads, plays it. -/
theorem C10_thm (env : Env) (s : PlayerState) (pos_ms : Int)
    (hidx : s.current_index = -1) (hpl : s.is_playing = false) (hne : s.tracks ≠ [])
    (hex : env.fileExists (s.tracks.getD ((-2 : Int) % (s.tracks.length : Int)).toNat "") = true)
    (hok : env.loadOk (s.tracks.getD ((-2 : Int) % (s.tracks.length : Int)).toNat "") = true) :
    (prev_track env pos_ms s).1.current_index = (-2 : Int) % (s.tracks.length : Int) ∧
    (prev_track env pos_ms s).1.is_playing = true ∧
    (prev_track env pos_ms s).2 = none ∧
    (-2 : Int) % (s.tracks.length : Int) =
      (if s.tracks.length = 1 then 0 else (s.tracks.length : Int) - 2) ∧
    ((-2 : Int) % (s.tracks.length : Int) = (s.tracks.length : Int) - 1 ↔
      s.tracks.length = 1) := by
  have hlen : 0 < s.tracks.length := List.length_pos.mpr hne
  have hlen1 : (1 : Int) ≤ (s.tracks.length : Int) := by exact_mod_cast hlen
  have hmod := neg_two_emod (s.tracks.length : Int) hlen1
  have harith1 : (-2 : Int) % (s.tracks.length : Int) =
      (if s.tracks.length = 1 then 0 else (s.tracks.length : Int) - 2) := by
    rw [hmod]
    by_cases h1 : s.tracks.length = 1
    · rw [if_pos h1, if_pos (by exact_mod_cast congrArg (Nat.cast : Nat → Int) h1)]
    · rw [if_neg h1, if_neg (by exact_mod_cast fun h => h1 (by exact_mod_cast h))]
  have hprev : prev_track env pos_ms s =
      play_track env { s with current_index := (-2 : Int) % (s.tracks.length : Int) } := by
    unfold prev_track
    rw [if_neg (by simp [hpl]), if_pos hne, hidx]
    norm_num
  have hplay := play_track_success env
      { s with current_index := (-2 : Int) % (s.tracks.length : Int) }
      (Int.emod_nonneg _ (by omega)) (Int.emod_lt_of_pos _ (by omega)) hex hok
  refine ⟨?_, ?_, ?_, harith1, ?_⟩
  · rw [hprev, hplay]
  · rw [hprev, hplay]
  · rw [hprev, hplay]
  · rw [hmod]
    by_cases h1 : s.tracks.length = 1
    · simp [h1]
    · rw [if_neg (by exact_mod_cast fun h => h1 (by exact_mod_cast h))]
      constructor
      · intro h; omega
      · intro h; exact absurd h h1

/-- C1 (counterexample): with tracks ["a", "b"], current index 0 and the
file "b" missing, `next()` reports NotFound but the current index has moved
from 0 to 1 — the session state is NOT "exactly what it was before the
call". -/
theorem C1_counterexample :
    next_track envB [] sAB = some ({ sAB with current_index := 1 }, some PError.notFound) ∧
    ({ sAB with current_index := 1 } : PlayerState).current_index ≠ sAB.current_index := by
  constructor
  · decide
  · decide

/-- C1 (amended): when the file at the target index is missing, the
operation reports NotFound and the playing flag, track length and all other
state are unchanged; a direct `play_track` call leaves the whole state —
including the index — unchanged, but `next()`, `prev()` and
`playTrack(index)` have already advanced the current index to the target
before the existence check, and it keeps that value. -/
theorem C1_thm (env : Env) (s1 s2 s3 s4 : PlayerState) (draws : List Nat)
    (pos_ms : Int) (p : String)
    (h1ne : s1.tracks ≠ []) (h1sh : s1.is_shuffled = false)
    (h1miss : env.fileExists
      (s1.tracks.getD (((s1.current_index + 1) % (s1.tracks.length : Int)).toNat) "") = false)
    (h2a : 0 ≤ s2.current_index) (h2b : s2.current_index < (s2.tracks.length : Int))
    (h2miss : env.fileExists (s2.tracks.getD s2.current_index.toNat "") = false)
    (h3ne : s3.tracks ≠ []) (h3pl : s3.is_playing = false)
    (h3miss : env.fileExists
      (s3.tracks.getD (((s3.current_index - 1) % (s3.tracks.length : Int)).toNat) "") = false)
    (h4mem : p ∈ s4.tracks) (h4miss : env.fileExists p = false) :
    next_track env draws s1 =
      some ({ s1 with current_index := (s1.current_index + 1) % (s1.tracks.length : Int) },
        some PError.notFound) ∧
    play_track env s2 = (s2, some PError.notFound) ∧
    prev_track env pos_ms s3 =
      ({ s3 with current_index := (s3.current_index - 1) % (s3.tracks.length : Int) },
        some PError.notFound) ∧
    play_track_from_path env p s4 =
      ({ s4 with current_index := (s4.tracks.indexOf p : Int) }, some PError.notFound) := by
  have hn1 : 0 < s1.tracks.length := List.length_pos.mpr h1ne
  have hn3 : 0 < s3.tracks.length := List.length_pos.mpr h3ne
  have hz1 : ((s1.tracks.length : Int)) ≠ 0 := by exact_mod_cast hn1.ne'
  have hz3 : ((s3.tracks.length : Int)) ≠ 0 := by exact_mod_cast hn3.ne'
  refine ⟨?_, play_track_notFound env s2 h2a h2b h2miss, ?_, ?_⟩
  · unfold next_track
    rw [if_pos h1ne, if_neg (by simp [h1sh])]
    rw [play_track_notFound env
      { s1 with current_index := (s1.current_index + 1) % (s1.tracks.length : Int) }
      (Int.emod_nonneg _ hz1) (Int.emod_lt_of_pos _ (by exact_mod_cast hn1)) h1miss]
  · unfold prev_track
    rw [if_neg (by simp [h3pl]), if_pos h3ne]
    exact play_track_notFound env
      { s3 with current_index := (s3.current_index - 1) % (s3.tracks.length : Int) }
      (Int.emod_nonneg _ hz3) (Int.emod_lt_of_pos _ (by exact_mod_cast hn3)) h3miss
  · unfold play_track_from_path
    rw [if_pos h4mem]
    have hidx : s4.tracks.indexOf p < s4.tracks.length := List.indexOf_lt_length.mpr h4mem
    refine play_track_notFound env
      { s4 with current_index := (s4.tracks.indexOf p : Int) }
      (Int.natCast_nonneg _)
      (by show ((s4.tracks.indexOf p : Int)) < (s4.tracks.length : Int); exact_mod_cast hidx) ?_
    show env.fileExists (s4.tracks.getD ((s4.tracks.indexOf p : Int)).toNat "") = false
    rw [Int.toNat_natCast, List.getD_eq_getElem s4.tracks "" hidx, List.getElem_indexOf hidx]
    exact h4miss

/-- C1 witness: concrete NotFound aborts through all four entry points. -/
theorem C1_witness :
    next_track envB [] sAB = some ({ sAB with current_index := 1 }, some PError.notFound) ∧
    play_track envB sB = (sB, some PError.notFound) ∧
    prev_track envB 0 sAB = ({ sAB with current_index := 1 }, some PError.notFound) ∧
    play_track_from_path envB "b" sAB =
      ({ sAB with current_index := 1 }, some PError.notFound) := by
  have h := C1_thm envB sAB sB sAB sAB [] 0 "b"
    (by decide) (by decide) (by decide) (by decide) (by decide) (by decide)
    (by decide) (by decide) (by decide) (by decide) (by decide)
  exact h

/-- C3 (confirmed): with shuffle on and a library of more than one track,
`next()` selects an index different from the pre-call current index (the
redraw loop, modelled by `pickDifferent` over the stream of `randint` draws,
only ever stops on a differing value); with exactly one track it selects
index 0. `play_track` never modifies the index it is given. -/
theorem C3_thm (env : Env) (s : PlayerState) (draws : List Nat) (j : Nat)
    (hsh : s.is_shuffled = true) (hne : s.tracks ≠ [])
    (hdr : ∀ d ∈ draws, d < s.tracks.length)
    (hpick : 1 < s.tracks.length → pickDifferent s.current_index draws = some j) :
    if 1 < s.tracks.length then
      next_track env draws s = some (play_track env { s with current_index := (j : Int) }) ∧
      (play_track env { s with current_index := (j : Int) }).1.current_index = (j : Int) ∧
      (j : Int) ≠ s.current_index ∧ j < s.tracks.length
    else
      next_track env draws s = some (play_track env { s with current_index := 0 }) ∧
      (play_track env { s with current_index := 0 }).1.current_index = 0 := by
  by_cases hgt : 1 < s.tracks.length
  · rw [if_pos hgt]
    have hp := hpick hgt
    rcases pickDifferent_spec s.current_index draws j hp with ⟨hne', hmem⟩
    refine ⟨?_, ?_, hne', hdr j hmem⟩
    · unfold next_track
      rw [if_pos hne, if_pos (by rw [hsh]), if_pos hgt, hp]
    · exact play_track_fst_current_index env _
  · rw [if_neg hgt]
    refine ⟨?_, ?_⟩
    · unfold next_track
      rw [if_pos hne, if_pos (by rw [hsh]), if_neg hgt]
    · exact play_track_fst_current_index env _

/-- C3 witness: two tracks, current index 0, draws [0, 1] — the loop redraws
past the equal value and lands on index 1 ≠ 0. -/
theorem C3_witness :
    next_track envAll [0, 1] sShuf =
      some (play_track envAll { sShuf with current_index := (1 : Int) }) ∧
    (play_track envAll { sShuf with current_index := (1 : Int) }).1.current_index = 1 ∧
    ((1 : Nat) : Int) ≠ sShuf.current_index ∧ 1 < sShuf.tracks.length := by
  have h := C3_thm envAll sShuf [0, 1] 1 rfl (by decide) (by decide) (fun _ => by decide)
  rw [if_pos (by decide)] at h
  exact h

/-- C5 (confirmed): saving a session with tracks [a, b, c], favorites {b},
shuffle on, volume 70 and current track b, then loading with every file
present, reproduces every field and resolves the current index to b's
position 1; loading the same snapshot when b no longer exists filters the
tracks to [a, c] and the favorites to {} and resolves the current index to
none (-1). -/
theorem C5_thm (a b c : String) (now : ℚ)
    (hab : a ≠ b) (hbc : b ≠ c) :
    load_state (fun _ => true)
        (save_state { tracks := [a, b, c], current_index := 1, is_playing := false,
                      track_length := 0, is_shuffled := true, favorites := [b],
                      albums := [], artists := [] } 70 now) =
      { tracks := [a, b, c], favorites := [b], current_index := 1,
        is_shuffled := true, volume := 70 } ∧
    load_state (fun p => !(p == b))
        (save_state { tracks := [a, b, c], current_index := 1, is_playing := false,
                      track_length := 0, is_shuffled := true, favorites := [b],
                      albums := [], artists := [] } 70 now) =
      { tracks := [a, c], favorites := [], current_index := -1,
        is_shuffled := true, volume := 70 } := by
  have hsave : save_state
      { tracks := [a, b, c], current_index := 1, is_playing := false, track_length := 0,
        is_shuffled := true, favorites := [b], albums := [], artists := [] } 70 now =
      { tracks := [a, b, c], favorites := [b], current_path := some b, is_shuffled := true,
        volume := 70, timestamp := now } := by
    unfold save_state
    rw [if_pos (by norm_num)]
    rfl
  have e1 : (a == b) = false := beq_eq_false_iff_ne.mpr hab
  have e2 : (b == b) = true := beq_self_eq_true b
  have e3 : (c == b) = false := beq_eq_false_iff_ne.mpr (Ne.symm hbc)
  have hidx : List.indexOf b [a, b, c] = 1 := by
    rw [List.indexOf_cons_ne _ hab, List.indexOf_cons_self]
  constructor
  · rw [hsave]
    unfold load_state
    dsimp only
    rw [if_pos (by simp)]
    simp [hidx]
  · rw [hsave]
    unfold load_state
    dsimp only
    rw [if_neg (by simp [e1, e3, Ne.symm hab, hbc])]
    simp [e1, e2, e3]

/-- C5 witness: the round trip at the concrete paths "A", "B", "C". -/
theorem C5_witness :
    load_state (fun _ => true)
        (save_state { tracks := ["A", "B", "C"], current_index := 1, is_playing := false,
                      track_length := 0, is_shuffled := true, favorites := ["B"],
                      albums := [], artists := [] } 70 0) =
      { tracks := ["A", "B", "C"], favorites := ["B"], current_index := 1,
        is_shuffled := true, volume := 70 } ∧
    load_state (fun p => !(p == "B"))
        (save_state { tracks := ["A", "B", "C"], current_index := 1, is_playing := false,
                      track_length := 0, is_shuffled := true, favorites := ["B"],
                      albums := [], artists := [] } 70 0) =
      { tracks := ["A", "C"], favorites := [], current_index := -1,
        is_shuffled := true, volume := 70 } :=
  C5_thm "A" "B" "C" 0 (by decide) (by decide)

/-- Helper: a path is in the fold result of `load_tracks` iff it was already
present or is an existing path of the input list. -/
theorem load_tracks_fold_mem (env : Env) (files : List String) :
    ∀ (t0 : List String) (k : Nat) (x : String),
      x ∈ (files.foldl (load_tracks_step env) (t0, k)).1 ↔
        x ∈ t0 ∨ (x ∈ files ∧ env.fileExists x = true) := by
  induction files with
  | nil => intro t0 k x; simp
  | cons f fs ih =>
    intro t0 k x
    rw [List.foldl_cons]
    cases hf : env.fileExists f with
    | false =>
      rw [show load_tracks_step env (t0, k) f = (t0, k) by simp [load_tracks_step, hf]]
      rw [ih]
      by_cases hx : x = f
      · subst hx; simp [hf]
      · simp [hx]
    | true =>
      by_cases hmem : f ∈ t0
      · rw [show load_tracks_step env (t0, k) f = (t0, k) by
          simp [load_tracks_step, hf, hmem]]
        rw [ih]
        by_cases hx : x = f
        · subst hx; simp [hmem, hf]
        · simp [hx]
      · rw [show load_tracks_step env (t0, k) f = (t0 ++ [f], k + 1) by
          simp [load_tracks_step, hf, hmem]]
        rw [ih]
        by_cases hx : x = f
        · subst hx; simp [hf]
        · simp [hx]

/-- Helper: the fold of `load_tracks` preserves `Nodup` of the master
sequence (it only appends paths that are not yet members). -/
theorem load_tracks_fold_nodup (env : Env) (files : List String) :
    ∀ (t0 : List String) (k : Nat), t0.Nodup →
      (files.foldl (load_tracks_step env) (t0, k)).1.Nodup := by
  induction files with
  | nil => intro t0 k h; simpa using h
  | cons f fs ih =>
    intro t0 k h
    rw [List.foldl_cons]
    cases hf : env.fileExists f with
    | false =>
      rw [show load_tracks_step env (t0, k) f = (t0, k) by simp [load_tracks_step, hf]]
      exact ih t0 k h
    | true =>
      by_cases hmem : f ∈ t0
      · rw [show load_tracks_step env (t0, k) f = (t0, k) by
          simp [load_tracks_step, hf, hmem]]
        exact ih t0 k h
      · rw [show load_tracks_step env (t0, k) f = (t0 ++ [f], k + 1) by
          simp [load_tracks_step, hf, hmem]]
        refine ih (t0 ++ [f]) (k + 1) ?_
        rw [List.nodup_append]
        exact ⟨h, List.nodup_singleton f, by simpa using hmem⟩

/-- Helper: the fold of `load_tracks` grows the master sequence by exactly
the returned added-count (skipped paths are not counted). -/
theorem load_tracks_fold_len (env : Env) (files : List String) :
    ∀ (t0 : List String) (k : Nat),
      (files.foldl (load_tracks_step env) (t0, k)).1.length + k =
        t0.length + (files.foldl (load_tracks_step env) (t0, k)).2 := by
  induction files with
  | nil => intro t0 k; simp
  | cons f fs ih =>
    intro t0 k
    rw [List.foldl_cons]
    cases hf : env.fileExists f with
    | false =>
      rw [show load_tracks_step env (t0, k) f = (t0, k) by simp [load_tracks_step, hf]]
      exact ih t0 k
    | true =>
      by_cases hmem : f ∈ t0
      · rw [show load_tracks_step env (t0, k) f = (t0, k) by
          simp [load_tracks_step, hf, hmem]]
        exact ih t0 k
      · rw [show load_tracks_step env (t0, k) f = (t0 ++ [f], k + 1) by
          simp [load_tracks_step, hf, hmem]]
        have h2 := ih (t0 ++ [f]) (k + 1)
        simp only [List.length_append, List.length_singleton] at h2
        omega

/-- Helper: when every existing path of `files` is already in the master
sequence, the fold of `load_tracks` is the identity with count 0. -/
theorem load_tracks_fold_fixed (env : Env) (files : List String) :
    ∀ (t0 : List String) (k : Nat), (∀ f ∈ files, env.fileExists f = true → f ∈ t0) →
      files.foldl (load_tracks_step env) (t0, k) = (t0, k) := by
  induction files with
  | nil => intro t0 k _; rfl
  | cons f fs ih =>
    intro t0 k h
    rw [List.foldl_cons]
    cases hf : env.fileExists f with
    | false =>
      rw [show load_tracks_step env (t0, k) f = (t0, k) by simp [load_tracks_step, hf]]
      exact ih t0 k (fun g hg => h g (List.mem_cons_of_mem f hg))
    | true =>
      have hmem : f ∈ t0 := h f (List.mem_cons_self f fs) hf
      rw [show load_tracks_step env (t0, k) f = (t0, k) by
        simp [load_tracks_step, hf, hmem]]
      exact ih t0 k (fun g hg => h g (List.mem_cons_of_mem f hg))

/-- Helper: dropping the non-existing paths from the input does not change
the fold of `load_tracks` (they are skipped anyway). -/
theorem load_tracks_fold_filter (env : Env) (files : List String) :
    ∀ (t0 : List String) (k : Nat),
      (files.filter (fun f => env.fileExists f)).foldl (load_tracks_step env) (t0, k) =
        files.foldl (load_tracks_step env) (t0, k) := by
  induction files with
  | nil => intro t0 k; rfl
  | cons f fs ih =>
    intro t0 k
    cases hf : env.fileExists f with
    | false =>
      rw [List.filter_cons_of_neg (by simp [hf])]
      rw [List.foldl_cons,
        show load_tracks_step env (t0, k) f = (t0, k) by simp [load_tracks_step, hf]]
      exact ih t0 k
    | true =>
      rw [List.filter_cons_of_pos (by simp [hf])]
      rw [List.foldl_cons, List.foldl_cons]
      exact ih _ _

/-- Helper: the track list and count returned by `load_tracks` are exactly
those of its fold (`_rebuild_indexes` only touches the album/artist maps). -/
theorem load_tracks_proj (env : Env) (files : List String) (s : PlayerState) :
    (load_tracks env files s).1.tracks = (files.foldl (load_tracks_step env) (s.tracks, 0)).1 ∧
    (load_tracks env files s).2 = (files.foldl (load_tracks_step env) (s.tracks, 0)).2 := by
  unfold load_tracks rebuild_indexes
  dsimp only
  split <;> exact ⟨rfl, rfl⟩

/-- C8 (confirmed): `load_tracks` (the `LibraryIndex.add` of the spec) is
idempotent — with a duplicate-free master sequence the result is
duplicate-free (a path added twice within one call keeps one entry), and
running the same call again changes nothing and reports 0 added; the master
sequence grows by exactly the returned added-count, and paths that do not
exist on disk are skipped (filtering them away changes nothing). -/
theorem C8_thm (env : Env) (files : List String) (s : PlayerState)
    (hnd : s.tracks.Nodup) :
    (load_tracks env files s).1.tracks.Nodup ∧
    load_tracks env files (load_tracks env files s).1 = ((load_tracks env files s).1, 0) ∧
    (load_tracks env files s).1.tracks.length =
      s.tracks.length + (load_tracks env files s).2 ∧
    load_tracks env (files.filter (fun f => env.fileExists f)) s =
      load_tracks env files s := by
  rcases load_tracks_proj env files s with ⟨ht, hk⟩
  refine ⟨?_, ?_, ?_, ?_⟩
  · rw [ht]
    exact load_tracks_fold_nodup env files s.tracks 0 hnd
  · have key : ∀ s1 : PlayerState,
        files.foldl (load_tracks_step env) (s1.tracks, 0) = (s1.tracks, 0) →
        load_tracks env files s1 = (s1, 0) := by
      intro s1 hfold
      unfold load_tracks
      dsimp only
      rw [hfold]
      rfl
    refine key (load_tracks env files s).1 ?_
    refine load_tracks_fold_fixed env files _ 0 (fun f hf hex => ?_)
    rw [ht]
    exact (load_tracks_fold_mem env files s.tracks 0 f).mpr (Or.inr ⟨hf, hex⟩)
  · rw [ht, hk]
    have h := load_tracks_fold_len env files s.tracks 0
    omega
  · unfold load_tracks
    dsimp only
    rw [load_tracks_fold_filter env files s.tracks 0]

/-- C8 witness: adding the same existing path twice in one call to an empty
library leaves one duplicate-free entry, counts it once, ignores paths that
do not exist on disk, and a second identical call changes nothing. -/
theorem C8_witness :
    (load_tracks envB ["a", "a"] initialState).1.tracks.Nodup ∧
    load_tracks envB ["a", "a"] (load_tracks envB ["a", "a"] initialState).1 =
      ((load_tracks envB ["a", "a"] initialState).1, 0) ∧
    (load_tracks envB ["a", "a"] initialState).1.tracks.length =
      initialState.tracks.length + (load_tracks envB ["a", "a"] initialState).2 ∧
    load_tracks envB (["a", "a"].filter (fun f => envB.fileExists f)) initialState =
      load_tracks envB ["a", "a"] initialState :=
  C8_thm envB ["a", "a"] initialState (by decide)

/-- Helper: membership in the deduplication worker — an element is kept iff
it occurs in the input and was not seen before. -/
theorem dedupAux_mem (l : List String) :
    ∀ (seen : List String) (x : String),
      x ∈ dedupAux seen l ↔ x ∈ l ∧ x ∉ seen := by
  induction l with
  | nil => intro seen x; simp [dedupAux]
  | cons y ys ih =>
    intro seen x
    by_cases hy : y ∈ seen
    · rw [dedupAux, if_pos hy, ih]
      by_cases hx : x = y
      · subst hx; simp [hy]
      · simp [hx]
    · rw [dedupAux, if_neg hy]
      simp only [List.mem_cons, ih, List.mem_append, List.mem_singleton,
        List.not_mem_nil, or_false]
      constructor
      · rintro (rfl | ⟨h1, h2⟩)
        · exact ⟨Or.inl rfl, hy⟩
        · exact ⟨Or.inr h1, fun hc => h2 (Or.inl hc)⟩
      · rintro ⟨rfl | h1, h2⟩
        · exact Or.inl rfl
        · by_cases hxy : x = y
          · exact Or.inl hxy
          · exact Or.inr ⟨h1, fun hc => hc.elim h2 hxy⟩

/-- Helper: the deduplication worker never emits a duplicate. -/
theorem dedupAux_nodup (l : List String) :
    ∀ seen : List String, (dedupAux seen l).Nodup := by
  induction l with
  | nil => intro seen; simp [dedupAux]
  | cons y ys ih =>
    intro seen
    by_cases hy : y ∈ seen
    · rw [dedupAux, if_pos hy]
      exact ih seen
    · rw [dedupAux, if_neg hy]
      rw [List.nodup_cons]
      refine ⟨fun hc => ?_, ih (seen ++ [y])⟩
      rcases (dedupAux_mem ys (seen ++ [y]) y).mp hc with ⟨_, h2⟩
      exact h2 (by simp)

/-- Helper: membership in the accumulated scan results. -/
theorem scannerFound_mem (fs : FS) (roots : List String) :
    ∀ (acc : List String) (x : String),
      x ∈ roots.foldl (fun a base => a ++ scanRoot fs base) acc ↔
        x ∈ acc ∨ ∃ b ∈ roots, x ∈ scanRoot fs b := by
  induction roots with
  | nil => intro acc x; simp
  | cons r rs ih =>
    intro acc x
    rw [List.foldl_cons, ih]
    simp only [List.mem_append, List.mem_cons]
    constructor
    · rintro (⟨h | h⟩ | ⟨b, hb, hx⟩)
      · exact Or.inl h
      · exact Or.inr ⟨r, Or.inl rfl, h⟩
      · exact Or.inr ⟨b, Or.inr hb, hx⟩
    · rintro (h | ⟨b, hb | hb, hx⟩)
      · exact Or.inl (Or.inl h)
      · exact Or.inl (Or.inr (hb ▸ hx))
      · exact Or.inr ⟨b, hb, hx⟩

/-- Helper: a filename with an allowed extension keeps it after the path
join — the extension check is a case-folded suffix check and the join only
prepends characters. -/
theorem isAudioName_joinPath (d f : String) (h : isAudioName f = true) :
    isAudioName (joinPath d f) = true := by
  unfold isAudioName at h ⊢
  rw [List.any_eq_true] at h ⊢
  rcases h with ⟨e, he, hsuf⟩
  refine ⟨e, he, ?_⟩
  unfold strEndsWith lowerStr at hsuf ⊢
  rw [List.isSuffixOf_iff_suffix] at hsuf ⊢
  have hdata : (joinPath d f).data = (d.data ++ "/".data) ++ f.data := by
    unfold joinPath
    rw [String.data_append, String.data_append]
  rw [hdata, List.map_append]
  exact hsuf.trans (List.suffix_append _ _)

/-- Helper: every accumulated scan result is the join of a directory and a
filename that passed the extension filter, under an existing root. -/
theorem scanRoot_mem (fs : FS) (base : String) (x : String) (hx : x ∈ scanRoot fs base) :
    fs.pathExists base = true ∧
      ∃ df ∈ fs.walk base, isAudioName df.2 = true ∧ x = joinPath df.1 df.2 := by
  unfold scanRoot at hx
  by_cases hb : fs.pathExists base = true
  · rw [if_pos hb] at hx
    rcases List.mem_map.mp hx with ⟨df, hdf, rfl⟩
    rcases List.mem_filter.mp hdf with ⟨hdf1, hdf2⟩
    exact ⟨hb, df, hdf1, hdf2, rfl⟩
  · rw [if_neg hb] at hx
    simp at hx

/-- C7 (confirmed): the scanner's terminal result is duplicate-free, sorted
in code-point lexicographic order, and every element is a directory/filename
join whose filename — hence the path — passed the case-insensitive extension
allow-list; roots that do not exist contribute nothing (filtering them out
of the root list leaves the result unchanged). -/
theorem C7_thm (fs : FS) (roots : List String) :
    List.Sorted strLe (scannerRun fs roots) ∧
    (scannerRun fs roots).Nodup ∧
    (scannerRun fs roots).all (fun p => isAudioName p) = true ∧
    scannerRun fs roots = scannerRun fs (roots.filter (fun r => fs.pathExists r)) := by
  refine ⟨List.sorted_insertionSort strLe _, ?_, ?_, ?_⟩
  · unfold scannerRun dedupKeepFirst
    rw [(List.perm_insertionSort strLe _).nodup_iff]
    exact dedupAux_nodup _ []
  · unfold scannerRun dedupKeepFirst
    rw [List.all_eq_true]
    intro p hp
    have hp2 := (List.perm_insertionSort strLe _).mem_iff.mp hp
    have hp3 : p ∈ scannerFound fs roots :=
      ((dedupAux_mem _ [] p).mp hp2).1
    rcases (scannerFound_mem fs roots [] p).mp hp3 with h | ⟨b, _, hx⟩
    · simp at h
    · rcases scanRoot_mem fs b p hx with ⟨_, df, _, hext, rfl⟩
      exact isAudioName_joinPath df.1 df.2 hext
  · unfold scannerRun scannerFound
    have key : ∀ (rs : List String) (acc : List String),
        rs.foldl (fun a base => a ++ scanRoot fs base) acc =
          (rs.filter (fun r => fs.pathExists r)).foldl
            (fun a base => a ++ scanRoot fs base) acc := by
      intro rs
      induction rs with
      | nil => intro acc; rfl
      | cons r rest ih =>
        intro acc
        by_cases hr : fs.pathExists r = true
        · rw [List.filter_cons_of_pos (by simp [hr]), List.foldl_cons, List.foldl_cons, ih]
        · rw [List.filter_cons_of_neg (by simp [hr]), List.foldl_cons]
          rw [show scanRoot fs r = [] by unfold scanRoot; rw [if_neg hr]]
          rw [List.append_nil, ih]
    rw [key roots []]

/-- Helper: removing a path from buckets that mention it at most once and
are non-empty leaves buckets that do not mention it and are non-empty. -/
theorem removeFromBuckets_spec (p : String) (bs : List (String × List String))
    (hb : ∀ kv ∈ bs, kv.2.count p ≤ 1 ∧ kv.2 ≠ []) :
    ∀ kv ∈ removeFromBuckets p bs, p ∉ kv.2 ∧ kv.2 ≠ [] := by
  induction bs with
  | nil => intro kv hkv; simp [removeFromBuckets] at hkv
  | cons b rest ih =>
    obtain ⟨k, v⟩ := b
    intro kv hkv
    have hbrest : ∀ kv ∈ rest, kv.2.count p ≤ 1 ∧ kv.2 ≠ [] :=
      fun kv2 hkv2 => hb kv2 (List.mem_cons_of_mem _ hkv2)
    simp only [removeFromBuckets] at hkv
    by_cases hpv : p ∈ v
    · rw [if_pos hpv] at hkv
      by_cases hve : v.erase p = []
      · rw [if_pos hve] at hkv
        exact ih hbrest kv hkv
      · rw [if_neg hve] at hkv
        rcases List.mem_cons.mp hkv with rfl | hkv2
        · refine ⟨?_, hve⟩
          have hc1 : v.count p = 1 :=
            le_antisymm (hb (k, v) (List.mem_cons_self _ _)).1
              (List.count_pos_iff.mpr hpv)
          have hc0 : (v.erase p).count p = 0 := by
            rw [List.count_erase_self, hc1]
          exact List.count_eq_zero.mp hc0
        · exact ih hbrest kv hkv2
    · rw [if_neg hpv] at hkv
      rcases List.mem_cons.mp hkv with rfl | hkv2
      · exact ⟨hpv, (hb (k, v) (List.mem_cons_self _ _)).2⟩
      · exact ih hbrest kv hkv2

/-- Helper: field values of a successful `delete_track` of a present path. -/
theorem delete_track_ok_proj (p : String) (s : PlayerState) (hmem : p ∈ s.tracks) :
    (delete_track .ok p s).1.tracks = s.tracks.erase p ∧
    (delete_track .ok p s).1.albums = removeFromBuckets p s.albums ∧
    (delete_track .ok p s).1.artists = removeFromBuckets p s.artists := by
  unfold delete_track
  dsimp only
  rw [if_pos hmem]
  split <;> exact ⟨rfl, rfl, rfl⟩

/-- C4 (counterexample): a track whose artist tag repeats the same name
("P,P") yields an artist bucket holding the path twice after
`_rebuild_indexes`; `delete_track` then removes only the FIRST occurrence
(`list.remove`), so after a successful removal the path is gone from the
master sequence but still present in an artist bucket. -/
theorem C4_counterexample :
    sDup.artists = [("P", ["t", "t"])] ∧
    (delete_track .ok "t" sDup).1.tracks = [] ∧
    (delete_track .ok "t" sDup).1.artists = [("P", ["t"])] ∧
    ((delete_track .ok "t" sDup).1.artists.all (fun kv => decide ("t" ∉ kv.2))) = false := by
  refine ⟨?_, ?_, ?_, ?_⟩ <;> decide

/-- C4 (amended): after a successful `remove(p)` of a path that occurs at
most once in the master sequence, `p` is absent from the master sequence;
and provided every album/artist bucket is non-empty and references `p` at
most once (which fails only when a single track's parsed artist list repeats
a name), `p` is absent from every album and artist bucket and every bucket
left empty is deleted entirely; a removal failing with a trash-permission
error leaves the whole state unchanged and reports the error. -/
theorem C4_thm (p : String) (s : PlayerState)
    (hmem : p ∈ s.tracks) (htc : s.tracks.count p ≤ 1)
    (halb : ∀ kv ∈ s.albums, kv.2.count p ≤ 1 ∧ kv.2 ≠ [])
    (hart : ∀ kv ∈ s.artists, kv.2.count p ≤ 1 ∧ kv.2 ≠ []) :
    delete_track .permissionError p s = (s, some PError.trashPermission) ∧
    p ∉ (delete_track .ok p s).1.tracks ∧
    ((delete_track .ok p s).1.albums.all
      (fun kv => decide (p ∉ kv.2) && decide (kv.2 ≠ []))) = true ∧
    ((delete_track .ok p s).1.artists.all
      (fun kv => decide (p ∉ kv.2) && decide (kv.2 ≠ []))) = true := by
  rcases delete_track_ok_proj p s hmem with ⟨ht, hal, har⟩
  refine ⟨rfl, ?_, ?_, ?_⟩
  · rw [ht]
    have hc1 : s.tracks.count p = 1 :=
      le_antisymm htc (List.count_pos_iff.mpr hmem)
    have hc0 : (s.tracks.erase p).count p = 0 := by
      rw [List.count_erase_self, hc1]
    exact List.count_eq_zero.mp hc0
  · rw [hal, List.all_eq_true]
    intro kv hkv
    rcases removeFromBuckets_spec p s.albums halb kv hkv with ⟨h1, h2⟩
    simp [h1, h2]
  · rw [har, List.all_eq_true]
    intro kv hkv
    rcases removeFromBuckets_spec p s.artists hart kv hkv with ⟨h1, h2⟩
    simp [h1, h2]

/-- C4 witness: deleting the only track of a one-track library (one album
bucket, one artist bucket) removes it everywhere and deletes both buckets;
the permission-error path leaves the state unchanged. -/
theorem C4_witness :
    delete_track .permissionError "t" sOne = (sOne, some PError.trashPermission) ∧
    "t" ∉ (delete_track .ok "t" sOne).1.tracks ∧
    ((delete_track .ok "t" sOne).1.albums.all
      (fun kv => decide ("t" ∉ kv.2) && decide (kv.2 ≠ []))) = true ∧
    ((delete_track .ok "t" sOne).1.artists.all
      (fun kv => decide ("t" ∉ kv.2) && decide (kv.2 ≠ []))) = true :=
  C4_thm "t" sOne (by decide) (by decide) (by decide) (by decide)

/-- C10 witness: with three tracks, `prev()` from NoTrack lands on index 1
(= 3 - 2) and plays it. -/
theorem C10_witness :
    (prev_track envAll 0 sPrev).1.current_index = (-2 : Int) % (sPrev.tracks.length : Int) ∧
    (prev_track envAll 0 sPrev).1.is_playing = true :=
  ⟨(C10_thm envAll sPrev 0 rfl rfl (by decide) (by decide) (by decide)).1,
   (C10_thm envAll sPrev 0 rfl rfl (by decide) (by decide) (by decide)).2.1⟩

end Sonora
